import Mathlib

/-!
Verification of the chain orchestration executor of the MCPHub repository
(`OrchestrationExecutor.tsx`). The executor's data model and operations are
embedded shallowly: React `useState` cells become a `ComponentState` record,
every `setExecutionSteps` publish is additionally recorded in an observation
trace, promise rejection is `Except.error`, and the ambient nondeterminism
(`Date.now()`, `Math.random()`) is supplied by an oracle `World`.
-/

namespace MCPHub

/-- Catalog entry metadata, from `src/types/database.ts` (`MCPServer`). Only
the fields the orchestration executor reads (`id`, `name`, `description`)
are modelled; the other catalog fields never reach the executor. -/
structure MCPServer where
  id : String
  name : String
  description : String := ""
deriving Repr, DecidableEq

/-- JSON-like values: the `any`-typed inputs and outputs threaded between
steps. Every number in the payloads the executor produces is integral (the
literal 2450.00 denotes the integer 2450 exactly). -/
inductive Json where
  | null : Json
  | bool (b : Bool) : Json
  | num (n : Int) : Json
  | str (s : String) : Json
  | arr (elems : List Json) : Json
  | obj (fields : List (String × Json)) : Json
deriving Repr

/-- Per-step execution record (interface `ExecutionStep`). `status` ranges
over "pending", "running", "completed", "failed"; an optional field is
`none` where the TS field is `undefined`. -/
structure ExecutionStep where
  id : String
  serverId : String
  serverName : String
  status : String
  input : Option Json := none
  output : Option Json := none
  error : Option String := none
  duration : Option Int := none
  startTime : Option Int := none
deriving Repr

instance : Inhabited ExecutionStep :=
  ⟨{ id := "", serverId := "", serverName := "", status := "pending" }⟩

/-- Aggregate run summary (the `executionResults` object). `status` is
"success", "partial" or "error"; the `error` field is set only by the
run-level error branch. -/
structure ExecutionResults where
  status : String
  totalSteps : Nat
  completedSteps : Nat
  totalDuration : Int := 0
  error : Option String := none
deriving Repr, DecidableEq

/-- React component state of `OrchestrationExecutor`: the four `useState`
cells, with their initial values as defaults. `currentStepIndex` keeps the
source's -1 sentinel for "no current step". -/
structure ComponentState where
  isExecuting : Bool := false
  executionSteps : List ExecutionStep := []
  currentStepIndex : Int := -1
  executionResults : Option ExecutionResults := none
deriving Repr

/-- Oracle for ambient nondeterminism: `clockSeq k` is the value returned by
the (k+1)-st `Date.now()` call of a run, `randSeq k` the value produced by
the (k+1)-st `Math.random()`-derived draw. -/
structure World where
  clockSeq : Nat → Int
  randSeq : Nat → Nat

/-- Number of clock readings and random draws consumed so far. -/
structure Counters where
  c : Nat := 0
  r : Nat := 0
deriving Repr, DecidableEq

/-- One `Date.now()` call. -/
def tick (w : World) (k : Counters) : Int × Counters :=
  (w.clockSeq k.c, { k with c := k.c + 1 })

/-- One `Math.random()`-derived draw. -/
def draw (w : World) (k : Counters) : Nat × Counters :=
  (w.randSeq k.r, { k with r := k.r + 1 })

/-- Ghost record of one `executeStep` invocation made by the run loop: the
step index and carried-forward input passed in, and the settled promise
(`Except.error` models a thrown exception). -/
structure Attempt where
  index : Nat
  input : Json
  result : Except String Json

instance : Inhabited Attempt := ⟨⟨0, Json.null, Except.error ""⟩⟩

/-- Execution context: the component state plus observation traces.
`stepsTrace` records every array passed to `setExecutionSteps`, in call
order; `attempts` records the run loop's `executeStep` invocations; `log`
records `console.warn` and `console.error` messages; `completedCallback`
records the argument of the final `onExecutionComplete` call. -/
structure ExecCtx where
  state : ComponentState
  counters : Counters := {}
  stepsTrace : List (List ExecutionStep) := []
  attempts : List Attempt := []
  log : List String := []
  completedCallback : Option (List ExecutionStep) := none

/-- Model of `setExecutionSteps(arr)`: replaces the component's step array
and appends the published snapshot to the observation trace. -/
def publishSteps (ctx : ExecCtx) (s : List ExecutionStep) : ExecCtx :=
  { ctx with state := { ctx.state with executionSteps := s },
             stepsTrace := ctx.stepsTrace ++ [s] }

/-- The hard-coded `mockServerExecutions` table: simulated per-server
actions keyed by server name. Each action ignores its input, waits a fixed
delay (timing lives in the clock oracle) and resolves with an object whose
`data` payload is returned here, exactly as `executeStep` extracts it.
Unknown names yield `none`, routing `executeStep` to its generic fallback.
None of these actions ever throws. -/
def mockServerExecutions (name : String) : Option (Json → Json) :=
  if name = "slack-connector" then
    some (fun _input => Json.obj
      [("channels", Json.arr [Json.str "#general", Json.str "#dev", Json.str "#random"]),
       ("messages_sent", Json.num 3), ("users_notified", Json.num 12)])
  else if name = "github-integration" then
    some (fun _input => Json.obj
      [("repositories", Json.arr [Json.str "repo1", Json.str "repo2"]),
       ("pull_requests", Json.num 5), ("issues_created", Json.num 2),
       ("commits_analyzed", Json.num 23)])
  else if name = "postgres-client" then
    some (fun _input => Json.obj
      [("tables_queried", Json.num 4), ("records_processed", Json.num 1250),
       ("queries_executed", Json.num 8)])
  else if name = "notion-sync" then
    some (fun _input => Json.obj
      [("pages_updated", Json.num 7), ("blocks_created", Json.num 23),
       ("sync_status", Json.str "completed")])
  else if name = "openai-assistant" then
    some (fun _input => Json.obj
      [("tokens_used", Json.num 1250), ("responses_generated", Json.num 3),
       ("function_calls", Json.num 5), ("analysis_complete", Json.bool true)])
  else if name = "stripe-payments" then
    some (fun _input => Json.obj
      [("payments_processed", Json.num 5), ("total_amount", Json.num 2450),
       ("subscriptions_created", Json.num 2)])
  else if name = "discord-bot" then
    some (fun _input => Json.obj
      [("commands_executed", Json.num 8), ("messages_sent", Json.num 15),
       ("users_engaged", Json.num 23)])
  else if name = "mongodb-client" then
    some (fun _input => Json.obj
      [("documents_processed", Json.num 156), ("collections_updated", Json.num 3),
       ("indexes_optimized", Json.num 2)])
  else none

/-- JS expression `step.startTime || Date.now()`: an absent or zero (falsy)
start time falls back to a fresh clock reading. -/
def jsStartOrNow (startTime : Option Int) (w : World) (k : Counters) : Int × Counters :=
  match startTime with
  | some t => if t = 0 then tick w k else (t, k)
  | none => tick w k

/-- The recurring source idiom `steps.map((s, i) => i === stepIndex ? upd(s) : s)`. -/
def updateStepAt (steps : List ExecutionStep) (stepIndex : Nat)
    (upd : ExecutionStep → ExecutionStep) : List ExecutionStep :=
  steps.mapIdx fun i s => if i = stepIndex then upd s else s

/-- The `updatedSteps` array of `executeStep`: step `stepIndex` marked
running with its start time, everything else as passed in. -/
def markRunning (steps : List ExecutionStep) (stepIndex : Nat) (t : Int) : List ExecutionStep :=
  updateStepAt steps stepIndex (fun s => { s with status := "running", startTime := some t })

/-- The `finalSteps` array of `executeStep`'s success paths: step
`stepIndex` marked completed with its output and duration. -/
def markCompleted (steps : List ExecutionStep) (stepIndex : Nat) (out : Json) (d : Int) :
    List ExecutionStep :=
  updateStepAt steps stepIndex
    (fun s => { s with status := "completed", output := some out, duration := some d })

/-- Model of `executeStep(step, stepIndex, steps, previousOutput)`. The
returned `Except` is the settled promise: `Except.error` models a thrown
exception. Both validation throws ("Invalid step", "Server not found")
occur before any state update. Inside the source's `try`, the registered
mock action and the generic fallback both always resolve, so the `catch`
block that would mark the step failed is unreachable and has no model
counterpart. The JS falsiness test `!step.serverId` is an empty-string
test (a missing step object cannot arise: the loop indexes in bounds).
In the completed update, `duration` is computed against the `step`
argument's own `startTime` field, which the earlier `running` update did
not mutate (the update built a fresh object), so it falls back to a second
`Date.now()` reading. -/
def executeStep (servers : List MCPServer) (w : World) (step : ExecutionStep) (stepIndex : Nat)
    (steps : List ExecutionStep) (previousOutput : Json) (ctx : ExecCtx) :
    ExecCtx × Except String Json :=
  if step.serverId = "" then
    (ctx, Except.error ("Invalid step at index " ++ toString stepIndex))
  else
    match servers.find? (fun s => s.id == step.serverId) with
    | none => (ctx, Except.error ("Server not found: " ++ step.serverId))
    | some server =>
      let tk := tick w ctx.counters
      let updatedSteps := markRunning steps stepIndex tk.1
      let ctx1 := publishSteps { ctx with counters := tk.2 } updatedSteps
      match mockServerExecutions server.name with
      | none =>
        let dk0 := draw w ctx1.counters
        let tk1 := tick w dk0.2
        let dk1 := draw w tk1.2
        let data := Json.obj
          [("server_name", Json.str server.name), ("execution_time", Json.num tk1.1),
           ("status", Json.str "completed"), ("operations_performed", Json.num (Int.ofNat dk1.1))]
        let tk2 := tick w dk1.2
        let sk := jsStartOrNow step.startTime w tk2.2
        let duration := tk2.1 - sk.1
        let finalSteps := markCompleted updatedSteps stepIndex data duration
        (publishSteps { ctx1 with counters := sk.2 } finalSteps, Except.ok data)
      | some executeFn =>
        let data := executeFn previousOutput
        let tk2 := tick w ctx1.counters
        let sk := jsStartOrNow step.startTime w tk2.2
        let duration := tk2.1 - sk.1
        let finalSteps := markCompleted updatedSteps stepIndex data duration
        (publishSteps { ctx1 with counters := sk.2 } finalSteps, Except.ok data)

/-- The per-entry record builder inside `initializeExecution`'s `map`: one
pending step per chain entry. The catalog lookup only supplies the cached
display name; `server?.name || 'Unknown Server'` also falls back on an
empty name, which is falsy in JS. -/
def buildStep (servers : List MCPServer) (serverId : String) : ExecutionStep :=
  { id := "step-" ++ serverId
    serverId := serverId
    serverName :=
      match servers.find? (fun s => s.id == serverId) with
      | some server => if server.name = "" then "Unknown Server" else server.name
      | none => "Unknown Server"
    status := "pending" }

/-- Model of `initializeExecution()`: builds the pending step per entry,
publishes the array, and resets `currentStepIndex` and `executionResults`. -/
def initializeExecution (servers : List MCPServer) (orchestrationServers : List String)
    (ctx : ExecCtx) : List ExecutionStep × ExecCtx :=
  let steps := orchestrationServers.map (buildStep servers)
  let ctx1 := publishSteps ctx steps
  (steps, { ctx1 with state := { ctx1.state with currentStepIndex := -1, executionResults := none } })

/-- The `for` loop of `executeChain` (its body, over the remaining indices).
`steps` is the `currentSteps` array captured before the loop; the source
never reassigns it, so every iteration reads the original pending records.
On success the carried `previousOutput` becomes the returned output; a
thrown step error is logged (`console.error`) and the loop continues with
`previousOutput` unchanged. Each invocation is recorded in the ghost
`attempts` trace. -/
def runLoop (servers : List MCPServer) (w : World) (steps : List ExecutionStep) :
    List Nat → Json → ExecCtx → ExecCtx
  | [], _, ctx => ctx
  | i :: rest, previousOutput, ctx =>
    let ctx0 := { ctx with state := { ctx.state with currentStepIndex := Int.ofNat i } }
    let er := executeStep servers w (steps.getD i default) i steps previousOutput ctx0
    let ctx1 := { er.1 with attempts := er.1.attempts ++ [⟨i, previousOutput, er.2⟩] }
    match er.2 with
    | Except.ok out => runLoop servers w steps rest out ctx1
    | Except.error e =>
      runLoop servers w steps rest previousOutput
        { ctx1 with log := ctx1.log ++ ["Step " ++ toString i ++ " failed: " ++ e] }

/-- The `currentSteps.filter(s => s.status === 'completed').length` count of
the completion block. -/
def completedCount (l : List ExecutionStep) : Nat :=
  (l.filter fun s => s.status == "completed").length

/-- The `currentSteps.reduce((sum, step) => sum + (step.duration || 0), 0)`
fold of the completion block; `step.duration || 0` agrees numerically with
`getD 0` (both give 0 for an absent or zero duration). -/
def sumDurations (l : List ExecutionStep) : Int :=
  l.foldl (fun sum step => sum + step.duration.getD 0) 0

/-- The completion block of `executeChain`: the functional
`setExecutionSteps(currentSteps => ...)` updater reads the latest published
array, computes the summary (`completedSteps === orchestrationServers.length`
classifies "success", anything less "partial"; `step.duration || 0` agrees
numerically with `getD 0`), publishes it via `setExecutionResults`, hands
the array to `onExecutionComplete`, and returns the array unchanged. -/
def finishRun (orchestrationServers : List String) (ctx : ExecCtx) : ExecCtx :=
  let currentSteps := ctx.state.executionSteps
  let completedSteps := completedCount currentSteps
  let totalDuration := sumDurations currentSteps
  let results : ExecutionResults :=
    { status := if completedSteps = orchestrationServers.length then "success" else "partial"
      totalSteps := orchestrationServers.length
      completedSteps := completedSteps
      totalDuration := totalDuration }
  { ctx with state := { ctx.state with executionResults := some results },
             completedCallback := some currentSteps }

/-- Model of `executeChain()`. An empty chain is rejected up front with a
`console.warn` and no other effect. Otherwise every index is executed in
order and the aggregate summary is published. The surrounding `try`'s
run-level catch (which would publish `status: 'error'`) has no model
counterpart because no expression in the body can throw: all step errors
are consumed inside the loop. The `finally` clears `isExecuting` and
`currentStepIndex`. -/
def executeChain (servers : List MCPServer) (orchestrationServers : List String) (w : World)
    (ctx : ExecCtx) : ExecCtx :=
  if orchestrationServers.length = 0 then
    { ctx with log := ctx.log ++ ["No servers in orchestration chain"] }
  else
    let ctxA := { ctx with state := { ctx.state with isExecuting := true } }
    let init := initializeExecution servers orchestrationServers ctxA
    let ctxB := runLoop servers w init.1 (List.range orchestrationServers.length) Json.null init.2
    let ctxC := finishRun orchestrationServers ctxB
    { ctxC with state := { ctxC.state with isExecuting := false, currentStepIndex := -1 } }

/-- Model of `resetExecution()`: clears all four state cells (-1 is the
source's sentinel for "no current step"). -/
def resetExecution (_s : ComponentState) : ComponentState :=
  { executionSteps := [], currentStepIndex := -1, executionResults := none, isExecuting := false }

/-- The `useState` initial values of the component. -/
def initialState : ComponentState := {}

/-- A fresh execution context: initial component state, no observations. -/
def initCtx : ExecCtx := { state := initialState }

/-- One run of the executor from the idle component: `executeChain` invoked
on a fresh context. -/
def runChain (servers : List MCPServer) (chain : List String) (w : World) : ExecCtx :=
  executeChain servers chain w initCtx

/-- Status of step `j` in a snapshot; an out-of-range read gives the default
pending record's status. -/
def snapStatus (s : List ExecutionStep) (j : Nat) : String :=
  ((s[j]?).getD default).status

/-- Snapshot published at position `p` of a `setExecutionSteps` trace (an
out-of-range position reads as the empty array). -/
def snapshotAt (T : List (List ExecutionStep)) (p : Nat) : List ExecutionStep :=
  (T[p]?).getD []

/-- Status of step `j` in the snapshot at trace position `p`. -/
def statusAt (T : List (List ExecutionStep)) (p j : Nat) : String :=
  snapStatus (snapshotAt T p) j

/-- Strict-ordering observation on a publish trace: whenever step `i + 1` is
seen `running`, some strictly earlier publish showed step `i` in a terminal
status. -/
def stepOrdered (T : List (List ExecutionStep)) : Prop :=
  ∀ p i, statusAt T p (i + 1) = "running" →
    ∃ q, q < p ∧ (statusAt T q i = "completed" ∨ statusAt T q i = "failed")

/-- Value carried forward by the run loop after an attempt: the output on
success, the unchanged incoming input on a thrown error. -/
def carriedNext (a : Attempt) : Json :=
  match a.result with
  | Except.ok out => out
  | Except.error _ => a.input

/-- The input-threading discipline of the run loop, as a relation between
the carried-forward value and the sequence of recorded attempts: the first
attempt receives the carried value, and each later attempt receives what
its predecessor carried forward (`carriedNext`). -/
inductive Chained : Json → List Attempt → Prop
  | nil (prev : Json) : Chained prev []
  | cons (prev : Json) (a : Attempt) (rest : List Attempt) :
      a.input = prev → Chained (carriedNext a) rest → Chained prev (a :: rest)

/-- A chain entry is executable at run time: its identifier is nonempty (the
`!step.serverId` guard) and resolves in the catalog. -/
def resolvableChain (servers : List MCPServer) (chain : List String) : Prop :=
  ∀ id ∈ chain, id ≠ "" ∧ (servers.find? (fun s => s.id == id)).isSome

instance (servers : List MCPServer) (chain : List String) :
    Decidable (resolvableChain servers chain) := by
  unfold resolvableChain; infer_instance

/-- A deterministic oracle for concrete evaluations: every clock reading is
0 and every random draw is 0. -/
def w0 : World := ⟨fun _ => 0, fun _ => 0⟩

/-- Two-entry catalog used by concrete scenarios. -/
def cexServers : List MCPServer :=
  [⟨"a", "slack-connector", ""⟩, ⟨"b", "github-integration", ""⟩]

theorem length_updateStepAt (steps : List ExecutionStep) (i : Nat)
    (f : ExecutionStep → ExecutionStep) : (updateStepAt steps i f).length = steps.length := by
  simp [updateStepAt]

theorem getElem?_updateStepAt (steps : List ExecutionStep) (i : Nat)
    (f : ExecutionStep → ExecutionStep) (j : Nat) :
    (updateStepAt steps i f)[j]? = Option.map (fun s => if j = i then f s else s) steps[j]? := by
  by_cases hj : j < steps.length
  · have hj1 : j < (updateStepAt steps i f).length := by rw [length_updateStepAt]; exact hj
    rw [List.getElem?_eq_getElem hj1, List.getElem?_eq_getElem hj]
    simp [updateStepAt, List.getElem_mapIdx]
  · rw [List.getElem?_eq_none (by rw [length_updateStepAt]; omega),
        List.getElem?_eq_none (by omega)]
    rfl

theorem snapStatus_updateStepAt (steps : List ExecutionStep) (i : Nat)
    (f : ExecutionStep → ExecutionStep) (x : String) (hf : ∀ s, (f s).status = x) (j : Nat) :
    snapStatus (updateStepAt steps i f) j =
      if j = i ∧ j < steps.length then x else snapStatus steps j := by
  unfold snapStatus
  rw [getElem?_updateStepAt]
  by_cases hj : j < steps.length
  · rw [List.getElem?_eq_getElem hj]
    by_cases hji : j = i
    · subst hji; simp [hj, hf]
    · simp [hji, hj, hf]
  · rw [List.getElem?_eq_none (by omega)]
    simp [hj]

theorem length_markRunning (steps : List ExecutionStep) (i : Nat) (t : Int) :
    (markRunning steps i t).length = steps.length := length_updateStepAt ..

theorem length_markCompleted (steps : List ExecutionStep) (i : Nat) (out : Json) (d : Int) :
    (markCompleted steps i out d).length = steps.length := length_updateStepAt ..

theorem snapStatus_markRunning (steps : List ExecutionStep) (i : Nat) (t : Int) (j : Nat) :
    snapStatus (markRunning steps i t) j =
      if j = i ∧ j < steps.length then "running" else snapStatus steps j :=
  snapStatus_updateStepAt steps i _ "running" (fun _ => rfl) j

theorem snapStatus_markCompleted (steps : List ExecutionStep) (i : Nat) (out : Json) (d : Int)
    (j : Nat) :
    snapStatus (markCompleted steps i out d) j =
      if j = i ∧ j < steps.length then "completed" else snapStatus steps j :=
  snapStatus_updateStepAt steps i _ "completed" (fun _ => rfl) j

theorem snapStatus_of_le (l : List ExecutionStep) (j : Nat) (h : l.length ≤ j) :
    snapStatus l j = "pending" := by
  unfold snapStatus
  rw [List.getElem?_eq_none h]
  rfl

theorem executeStep_cases (servers : List MCPServer) (w : World) (step : ExecutionStep)
    (stepIndex : Nat) (steps : List ExecutionStep) (prev : Json) (ctx : ExecCtx) :
    (∃ e, executeStep servers w step stepIndex steps prev ctx = (ctx, Except.error e)) ∨
    (∃ out t d k, executeStep servers w step stepIndex steps prev ctx =
      ({ ctx with
          state := { ctx.state with
            executionSteps := markCompleted (markRunning steps stepIndex t) stepIndex out d },
          counters := k,
          stepsTrace := (ctx.stepsTrace ++ [markRunning steps stepIndex t]) ++
            [markCompleted (markRunning steps stepIndex t) stepIndex out d] },
        Except.ok out)) := by
  by_cases h1 : step.serverId = ""
  · left
    refine ⟨"Invalid step at index " ++ toString stepIndex, ?_⟩
    unfold executeStep
    rw [if_pos h1]
  · cases hfind : servers.find? (fun s => s.id == step.serverId) with
    | none =>
      left
      refine ⟨"Server not found: " ++ step.serverId, ?_⟩
      unfold executeStep
      rw [if_neg h1, hfind]
    | some server =>
      right
      unfold executeStep
      rw [if_neg h1, hfind]
      dsimp only
      cases hmock : mockServerExecutions server.name with
      | none => exact ⟨_, _, _, _, rfl⟩
      | some executeFn => exact ⟨_, _, _, _, rfl⟩

theorem executeStep_ok_of (servers : List MCPServer) (w : World) (step : ExecutionStep)
    (stepIndex : Nat) (steps : List ExecutionStep) (prev : Json) (ctx : ExecCtx)
    (h1 : step.serverId ≠ "")
    (h2 : (servers.find? (fun s => s.id == step.serverId)).isSome) :
    ∃ out t d k, executeStep servers w step stepIndex steps prev ctx =
      ({ ctx with
          state := { ctx.state with
            executionSteps := markCompleted (markRunning steps stepIndex t) stepIndex out d },
          counters := k,
          stepsTrace := (ctx.stepsTrace ++ [markRunning steps stepIndex t]) ++
            [markCompleted (markRunning steps stepIndex t) stepIndex out d] },
        Except.ok out) := by
  obtain ⟨server, hfind⟩ := Option.isSome_iff_exists.mp h2
  unfold executeStep
  rw [if_neg h1, hfind]
  dsimp only
  cases hmock : mockServerExecutions server.name with
  | none => exact ⟨_, _, _, _, rfl⟩
  | some executeFn => exact ⟨_, _, _, _, rfl⟩

theorem runLoop_execSteps_length (servers : List MCPServer) (w : World)
    (steps : List ExecutionStep) (l : List Nat) : ∀ (prev : Json) (ctx : ExecCtx),
    ctx.state.executionSteps.length = steps.length →
    (runLoop servers w steps l prev ctx).state.executionSteps.length = steps.length := by
  induction l with
  | nil => intro prev ctx h; exact h
  | cons i rest ih =>
    intro prev ctx h
    rcases executeStep_cases servers w (steps.getD i default) i steps prev
        { ctx with state := { ctx.state with currentStepIndex := Int.ofNat i } } with
      ⟨e, heq⟩ | ⟨out, t, d, k, heq⟩
    · simp only [runLoop]
      rw [heq]
      dsimp only
      exact ih _ _ h
    · simp only [runLoop]
      rw [heq]
      dsimp only
      refine ih _ _ ?_
      show (markCompleted (markRunning steps i t) i out d).length = steps.length
      rw [length_markCompleted, length_markRunning]

theorem runLoop_attempts_chain (servers : List MCPServer) (w : World)
    (steps : List ExecutionStep) (l : List Nat) : ∀ (prev : Json) (ctx : ExecCtx),
    ∃ tr, (runLoop servers w steps l prev ctx).attempts = ctx.attempts ++ tr ∧
      tr.map (fun a => a.index) = l ∧ Chained prev tr := by
  induction l with
  | nil => intro prev ctx; exact ⟨[], by simp [runLoop], rfl, Chained.nil prev⟩
  | cons i rest ih =>
    intro prev ctx
    rcases executeStep_cases servers w (steps.getD i default) i steps prev
        { ctx with state := { ctx.state with currentStepIndex := Int.ofNat i } } with
      ⟨e, heq⟩ | ⟨out, t, d, k, heq⟩
    · simp only [runLoop]
      rw [heq]
      dsimp only
      obtain ⟨tr, htr, hidx, hch⟩ := ih prev _
      refine ⟨⟨i, prev, Except.error e⟩ :: tr, ?_, ?_, ?_⟩
      · rw [htr]
        simp
      · simp [hidx]
      · exact Chained.cons prev _ tr rfl hch
    · simp only [runLoop]
      rw [heq]
      dsimp only
      obtain ⟨tr, htr, hidx, hch⟩ := ih out _
      refine ⟨⟨i, prev, Except.ok out⟩ :: tr, ?_, ?_, ?_⟩
      · rw [htr]
        simp
      · simp [hidx]
      · exact Chained.cons prev _ tr rfl hch

theorem statusAt_append_left (T L : List (List ExecutionStep)) (q j : Nat) (h : q < T.length) :
    statusAt (T ++ L) q j = statusAt T q j := by
  unfold statusAt snapshotAt
  rw [List.getElem?_append_left h]

theorem snapshotAt_of_le (T : List (List ExecutionStep)) (p : Nat) (h : T.length ≤ p) :
    snapshotAt T p = [] := by
  unfold snapshotAt
  rw [List.getElem?_eq_none h]
  rfl

theorem snapshotAt_append_mid (T : List (List ExecutionStep)) (u v : List ExecutionStep) :
    snapshotAt ((T ++ [u]) ++ [v]) T.length = u := by
  unfold snapshotAt
  rw [List.getElem?_append_left (by simp), List.getElem?_append_right (le_refl _)]
  simp

theorem snapshotAt_append_last (T : List (List ExecutionStep)) (u v : List ExecutionStep) :
    snapshotAt ((T ++ [u]) ++ [v]) (T.length + 1) = v := by
  unfold snapshotAt
  rw [List.getElem?_append_right (by simp)]
  simp

theorem stepOrdered_extend (T : List (List ExecutionStep)) (steps : List ExecutionStep)
    (s : Nat) (t : Int) (out : Json) (d : Int)
    (hpend : ∀ j, snapStatus steps j = "pending")
    (hord : stepOrdered T)
    (hprev : s = 0 ∨ ∃ q, q < T.length ∧ statusAt T q (s - 1) = "completed") :
    stepOrdered ((T ++ [markRunning steps s t]) ++
      [markCompleted (markRunning steps s t) s out d]) := by
  intro p i hrun
  rcases Nat.lt_trichotomy p T.length with hp | hp | hp
  · rw [statusAt_append_left (T ++ [markRunning steps s t]) _ p (i + 1)
        (by simp only [List.length_append, List.length_singleton]; omega),
      statusAt_append_left T _ p (i + 1) hp] at hrun
    obtain ⟨q, hq, hterm⟩ := hord p i hrun
    refine ⟨q, hq, ?_⟩
    rw [statusAt_append_left (T ++ [markRunning steps s t]) _ q i
        (by simp only [List.length_append, List.length_singleton]; omega),
      statusAt_append_left T _ q i (by omega)]
    exact hterm
  · subst hp
    have hmid : statusAt ((T ++ [markRunning steps s t]) ++
        [markCompleted (markRunning steps s t) s out d]) T.length (i + 1) =
        snapStatus (markRunning steps s t) (i + 1) := by
      unfold statusAt
      rw [snapshotAt_append_mid]
    rw [hmid, snapStatus_markRunning] at hrun
    by_cases hc : i + 1 = s ∧ i + 1 < steps.length
    · rcases hprev with hs0 | ⟨q, hqlen, hqstat⟩
      · omega
      · refine ⟨q, hqlen, Or.inl ?_⟩
        rw [statusAt_append_left (T ++ [markRunning steps s t]) _ q i
            (by simp only [List.length_append, List.length_singleton]; omega),
          statusAt_append_left T _ q i hqlen]
        rw [show i = s - 1 by omega]
        exact hqstat
    · rw [if_neg hc, hpend (i + 1)] at hrun
      exact absurd hrun (by decide)
  · rcases Nat.lt_or_ge p (T.length + 2) with hp2 | hp2
    · have hpe : p = T.length + 1 := by omega
      subst hpe
      have hlast : statusAt ((T ++ [markRunning steps s t]) ++
          [markCompleted (markRunning steps s t) s out d]) (T.length + 1) (i + 1) =
          snapStatus (markCompleted (markRunning steps s t) s out d) (i + 1) := by
        unfold statusAt
        rw [snapshotAt_append_last]
      rw [hlast, snapStatus_markCompleted] at hrun
      by_cases hc : i + 1 = s ∧ i + 1 < (markRunning steps s t).length
      · rw [if_pos hc] at hrun
        exact absurd hrun (by decide)
      · rw [if_neg hc, snapStatus_markRunning] at hrun
        rw [length_markRunning] at hc
        rw [if_neg hc, hpend (i + 1)] at hrun
        exact absurd hrun (by decide)
    · have hsnap : snapshotAt ((T ++ [markRunning steps s t]) ++
          [markCompleted (markRunning steps s t) s out d]) p = [] :=
        snapshotAt_of_le _ _
          (by simp only [List.length_append, List.length_singleton]; omega)
      unfold statusAt at hrun
      rw [hsnap, snapStatus_of_le _ _ (by simp)] at hrun
      exact absurd hrun (by decide)

theorem stepOrdered_single (steps : List ExecutionStep)
    (hpend : ∀ j, snapStatus steps j = "pending") : stepOrdered [steps] := by
  intro p i hrun
  cases p with
  | zero =>
    have hrun2 : snapStatus steps (i + 1) = "running" := hrun
    rw [hpend (i + 1)] at hrun2
    exact absurd hrun2 (by decide)
  | succ q =>
    have hsnap : snapshotAt [steps] (q + 1) = [] := snapshotAt_of_le _ _ (by simp)
    unfold statusAt at hrun
    rw [hsnap, snapStatus_of_le _ _ (by simp)] at hrun
    exact absurd hrun (by decide)

theorem runLoop_ordered (servers : List MCPServer) (w : World) (steps : List ExecutionStep)
    (cnt : Nat) : ∀ (s : Nat) (prev : Json) (ctx : ExecCtx),
    s + cnt ≤ steps.length →
    (∀ j, s ≤ j → j < s + cnt →
      (steps.getD j default).serverId ≠ "" ∧
      (servers.find? (fun sv => sv.id == (steps.getD j default).serverId)).isSome) →
    (∀ j, snapStatus steps j = "pending") →
    stepOrdered ctx.stepsTrace →
    (s = 0 ∨ ∃ q, q < ctx.stepsTrace.length ∧ statusAt ctx.stepsTrace q (s - 1) = "completed") →
    stepOrdered (runLoop servers w steps (List.range' s cnt) prev ctx).stepsTrace := by
  induction cnt with
  | zero =>
    intro s prev ctx _ _ _ hord _
    exact hord
  | succ c ih =>
    intro s prev ctx hlen hres hpend hord hprev
    rw [List.range'_succ]
    obtain ⟨out, t, d, k, heq⟩ := executeStep_ok_of servers w (steps.getD s default) s steps prev
      { ctx with state := { ctx.state with currentStepIndex := Int.ofNat s } }
      (hres s le_rfl (by omega)).1 (hres s le_rfl (by omega)).2
    simp only [runLoop]
    rw [heq]
    dsimp only
    apply ih (s + 1) out
    · omega
    · intro j hj1 hj2
      exact hres j (by omega) (by omega)
    · exact hpend
    · exact stepOrdered_extend ctx.stepsTrace steps s t out d hpend hord hprev
    · right
      refine ⟨ctx.stepsTrace.length + 1, ?_, ?_⟩
      · simp only [List.length_append, List.length_singleton]
        omega
      · show statusAt _ _ s = "completed"
        unfold statusAt
        rw [snapshotAt_append_last, snapStatus_markCompleted,
          if_pos ⟨rfl, by rw [length_markRunning]; omega⟩]

theorem initializeExecution_fst (servers : List MCPServer) (chain : List String) (ctx : ExecCtx) :
    (initializeExecution servers chain ctx).1 = chain.map (buildStep servers) := rfl

theorem initializeExecution_length (servers : List MCPServer) (chain : List String)
    (ctx : ExecCtx) : (initializeExecution servers chain ctx).1.length = chain.length :=
  List.length_map _ _

theorem initializeExecution_pending (servers : List MCPServer) (chain : List String)
    (ctx : ExecCtx) (j : Nat) : snapStatus (initializeExecution servers chain ctx).1 j = "pending" := by
  by_cases hj : j < chain.length
  · unfold snapStatus
    rw [initializeExecution_fst, List.getElem?_map, List.getElem?_eq_getElem hj]
    rfl
  · exact snapStatus_of_le _ _ (by rw [initializeExecution_length]; omega)

theorem initializeExecution_getD_serverId (servers : List MCPServer) (chain : List String)
    (ctx : ExecCtx) (j : Nat) (hj : j < chain.length) :
    ((initializeExecution servers chain ctx).1.getD j default).serverId = chain[j] := by
  rw [initializeExecution_fst, List.getD_eq_getElem?_getD, List.getElem?_map,
    List.getElem?_eq_getElem hj]
  rfl

theorem executeChain_stepsTrace_nonempty (servers : List MCPServer) (chain : List String)
    (w : World) (ctx : ExecCtx) (h : ¬ chain.length = 0) :
    (executeChain servers chain w ctx).stepsTrace =
      (runLoop servers w
        (initializeExecution servers chain
          { ctx with state := { ctx.state with isExecuting := true } }).1
        (List.range chain.length) Json.null
        (initializeExecution servers chain
          { ctx with state := { ctx.state with isExecuting := true } }).2).stepsTrace := by
  unfold executeChain
  rw [if_neg h]
  rfl

theorem executeChain_attempts_chain (servers : List MCPServer) (chain : List String)
    (w : World) (ctx : ExecCtx) (h : ¬ chain.length = 0) :
    ∃ tr, (executeChain servers chain w ctx).attempts = ctx.attempts ++ tr ∧
      tr.map (fun a => a.index) = List.range chain.length ∧ Chained Json.null tr := by
  obtain ⟨tr, htr, hidx, hch⟩ := runLoop_attempts_chain servers w
    (initializeExecution servers chain
      { ctx with state := { ctx.state with isExecuting := true } }).1
    (List.range chain.length) Json.null
    (initializeExecution servers chain
      { ctx with state := { ctx.state with isExecuting := true } }).2
  refine ⟨tr, ?_, hidx, hch⟩
  unfold executeChain
  rw [if_neg h]
  exact htr

theorem executeChain_execSteps_nonempty (servers : List MCPServer) (chain : List String)
    (w : World) (ctx : ExecCtx) (h : ¬ chain.length = 0) :
    (executeChain servers chain w ctx).state.executionSteps =
      (runLoop servers w
        (initializeExecution servers chain
          { ctx with state := { ctx.state with isExecuting := true } }).1
        (List.range chain.length) Json.null
        (initializeExecution servers chain
          { ctx with state := { ctx.state with isExecuting := true } }).2).state.executionSteps := by
  unfold executeChain
  rw [if_neg h]
  rfl

theorem executeChain_results_nonempty (servers : List MCPServer) (chain : List String)
    (w : World) (ctx : ExecCtx) (h : ¬ chain.length = 0) :
    (executeChain servers chain w ctx).state.executionResults =
      some { status := if completedCount ((executeChain servers chain w ctx).state.executionSteps)
                  = chain.length then "success" else "partial"
             totalSteps := chain.length
             completedSteps := completedCount ((executeChain servers chain w ctx).state.executionSteps)
             totalDuration := sumDurations ((executeChain servers chain w ctx).state.executionSteps) } := by
  unfold executeChain
  rw [if_neg h]
  rfl

theorem runChain_results (servers : List MCPServer) (chain : List String) (w : World)
    (h : ¬ chain.length = 0) :
    (runChain servers chain w).state.executionResults =
      some { status := if completedCount ((runChain servers chain w).state.executionSteps)
                  = chain.length then "success" else "partial"
             totalSteps := chain.length
             completedSteps := completedCount ((runChain servers chain w).state.executionSteps)
             totalDuration := sumDurations ((runChain servers chain w).state.executionSteps) } :=
  executeChain_results_nonempty servers chain w initCtx h

theorem runChain_steps_length (servers : List MCPServer) (chain : List String) (w : World) :
    (runChain servers chain w).state.executionSteps.length = chain.length := by
  by_cases h : chain.length = 0
  · unfold runChain executeChain
    rw [if_pos h]
    simpa using h.symm
  · unfold runChain
    rw [executeChain_execSteps_nonempty servers chain w initCtx h]
    exact (runLoop_execSteps_length servers w
      (initializeExecution servers chain
        { initCtx with state := { initCtx.state with isExecuting := true } }).1
      (List.range chain.length) Json.null
      (initializeExecution servers chain
        { initCtx with state := { initCtx.state with isExecuting := true } }).2
      rfl).trans (initializeExecution_length _ _ _)

/-- C1, counterexample. The claim says that after a failed step every later
step receives input null. Run the chain ["a", "x", "b"] against a catalog
holding "a" and "b": step 0 completes, step 1 throws "Server not found: x",
yet step 2 receives step 0's output — a non-null object — because the loop
leaves `previousOutput` unchanged when `executeStep` throws. -/
theorem C1_counterexample :
    ((runChain cexServers ["a", "x", "b"] w0).attempts.map (fun a => a.index)) = [0, 1, 2] ∧
    ((runChain cexServers ["a", "x", "b"] w0).attempts.getD 1 default).result =
      Except.error "Server not found: x" ∧
    ((runChain cexServers ["a", "x", "b"] w0).attempts.getD 2 default).input ≠ Json.null := by
  refine ⟨rfl, rfl, ?_⟩
  intro hcontra
  exact Json.noConfusion hcontra

/-- C1, amended. For every chain, all indices are attempted in order even
when steps fail, and the carried-forward input threads as follows: the first
attempt receives null, and each later attempt receives its predecessor's
output if the predecessor succeeded, or the predecessor's own (unchanged)
input if it failed — so a failed step leaves the carried value of the most
recent successful step in place rather than resetting it to null. -/
theorem C1_amended_input_threading (servers : List MCPServer) (chain : List String) (w : World) :
    ((runChain servers chain w).attempts.map (fun a => a.index)) = List.range chain.length ∧
    Chained Json.null (runChain servers chain w).attempts := by
  by_cases h : chain.length = 0
  · have he : (runChain servers chain w).attempts = [] := by
      unfold runChain executeChain
      rw [if_pos h]
      rfl
    rw [he, h]
    exact ⟨rfl, Chained.nil _⟩
  · obtain ⟨tr, htr, hidx, hch⟩ := executeChain_attempts_chain servers chain w initCtx h
    have h2 : initCtx.attempts = [] := rfl
    have hr : (runChain servers chain w).attempts = tr := by
      unfold runChain
      rw [htr, h2, List.nil_append]
    rw [hr]
    exact ⟨hidx, hch⟩

/-- C2, code behavior at the failing input. For the chain ["unknown-id"]
over an empty catalog, the claim says the step transitions to Failed with a
"server not found" error recorded on it. The code instead throws before any
status update: the published step stays "pending" with no error recorded
(the message is only logged by the run loop), while the run does continue
and classifies the outcome "partial" with zero completed steps. -/
theorem C2_missing_entry_code_behavior :
    ((runChain [] ["unknown-id"] w0).state.executionSteps.map
        (fun s => (s.serverName, s.status, s.error))) =
      [("Unknown Server", "pending", none)] ∧
    (runChain [] ["unknown-id"] w0).state.executionResults =
      some { status := "partial", totalSteps := 1, completedSteps := 0, totalDuration := 0 } ∧
    (runChain [] ["unknown-id"] w0).log = ["Step 0 failed: Server not found: unknown-id"] :=
  ⟨rfl, rfl, rfl⟩

/-- C3, code behavior at the failing input. For the chain ["a", "b"] with
both entries resolvable, both steps execute and complete, but each per-step
update is computed from the initial all-pending array, so the final
published list shows step 0 back at "pending" — not terminal — and the
summary counts only 1 of 2 steps, classifying the run "partial". -/
theorem C3_terminality_code_behavior :
    ((runChain cexServers ["a", "b"] w0).state.executionSteps.map (fun s => s.status)) =
      ["pending", "completed"] ∧
    (runChain cexServers ["a", "b"] w0).state.executionResults =
      some { status := "partial", totalSteps := 2, completedSteps := 1, totalDuration := 0 } :=
  ⟨rfl, rfl⟩

/-- C4. For every non-empty chain of length n, the published aggregate
outcome r satisfies: r.status = "success" iff r.completedSteps = n, and
r.status = "partial" iff r.completedSteps < n (including the
completedSteps = 0 case, which is "partial", never "error"). -/
theorem C4_classification (servers : List MCPServer) (chain : List String) (w : World)
    (h : chain ≠ []) :
    ∃ r, (runChain servers chain w).state.executionResults = some r ∧
      (r.status = "success" ↔ r.completedSteps = chain.length) ∧
      (r.status = "partial" ↔ r.completedSteps < chain.length) := by
  have h0 : ¬ chain.length = 0 := by simpa [List.length_eq_zero] using h
  refine ⟨_, runChain_results servers chain w h0, ?_, ?_⟩
  · by_cases hcn : completedCount ((runChain servers chain w).state.executionSteps) = chain.length
    · rw [if_pos hcn]
      exact ⟨fun _ => hcn, fun _ => rfl⟩
    · rw [if_neg hcn]
      exact ⟨fun hh => absurd hh (show ¬ ("partial" : String) = "success" by decide),
        fun hh => absurd hh hcn⟩
  · have hle : completedCount ((runChain servers chain w).state.executionSteps) ≤ chain.length :=
      (List.length_filter_le _ _).trans (le_of_eq (runChain_steps_length servers chain w))
    by_cases hcn : completedCount ((runChain servers chain w).state.executionSteps) = chain.length
    · rw [if_pos hcn]
      refine ⟨fun hh => absurd hh (show ¬ ("success" : String) = "partial" by decide),
        fun hh => ?_⟩
      exact absurd (show completedCount ((runChain servers chain w).state.executionSteps)
        < chain.length from hh) (by omega)
    · rw [if_neg hcn]
      refine ⟨fun _ => ?_, fun _ => rfl⟩
      exact show completedCount ((runChain servers chain w).state.executionSteps)
        < chain.length by omega

/-- C4, witness at the concrete chain ["a"]. -/
theorem C4_classification_witness :
    ((["a"] : List String) ≠ []) ∧
    (∃ r, (runChain cexServers ["a"] w0).state.executionResults = some r ∧
      (r.status = "success" ↔ r.completedSteps = (["a"] : List String).length) ∧
      (r.status = "partial" ↔ r.completedSteps < (["a"] : List String).length)) :=
  ⟨by decide, C4_classification cexServers ["a"] w0 (by decide)⟩

/-- C5, counterexample. The claim says step i never enters Running before
step i-1 is terminal. On the chain ["x", "b"] where "x" is unresolvable,
step 0 throws before any status update and is never marked terminal, yet
step 1 still enters Running: the publish trace violates the ordering law. -/
theorem C5_counterexample :
    ¬ stepOrdered (runChain [⟨"b", "github-integration", ""⟩] ["x", "b"] w0).stepsTrace := by
  intro hOrd
  obtain ⟨q, hq, hterm⟩ := hOrd 1 0 (by rfl)
  have hq0 : q = 0 := by omega
  subst hq0
  have hterm2 : ("pending" : String) = "completed" ∨ ("pending" : String) = "failed" := hterm
  rcases hterm2 with hh | hh <;> exact absurd hh (by decide)

/-- C5, amended. For chains in which every entry identifier is nonempty and
resolvable in the catalog, the publish trace is strictly ordered: step i
never enters Running before step i-1 has reached a terminal status. The
counterexample forces the resolvability restriction: the code never marks a
step whose entry is missing, so its successor runs without it ever becoming
terminal. -/
theorem C5_amended_ordering (servers : List MCPServer) (chain : List String) (w : World)
    (h : resolvableChain servers chain) :
    stepOrdered (runChain servers chain w).stepsTrace := by
  by_cases hne : chain.length = 0
  · have hT : (runChain servers chain w).stepsTrace = [] := by
      unfold runChain executeChain
      rw [if_pos hne]
      rfl
    rw [hT]
    intro p i hrun
    unfold statusAt at hrun
    rw [snapshotAt_of_le [] p (by simp), snapStatus_of_le _ _ (by simp)] at hrun
    exact absurd hrun (by decide)
  · have hT := executeChain_stepsTrace_nonempty servers chain w initCtx hne
    unfold runChain
    rw [hT, List.range_eq_range']
    apply runLoop_ordered servers w _ chain.length 0 Json.null
    · rw [initializeExecution_length]
      omega
    · intro j hj0 hjn
      rw [Nat.zero_add] at hjn
      constructor
      · rw [initializeExecution_getD_serverId servers chain _ j hjn]
        exact (h chain[j] (List.getElem_mem hjn)).1
      · rw [initializeExecution_getD_serverId servers chain _ j hjn]
        exact (h chain[j] (List.getElem_mem hjn)).2
    · intro j
      exact initializeExecution_pending servers chain _ j
    · exact stepOrdered_single _ (fun j => initializeExecution_pending servers chain
        { initCtx with state := { initCtx.state with isExecuting := true } } j)
    · exact Or.inl rfl

/-- C5, witness at the concrete resolvable chain ["a", "b"]. -/
theorem C5_amended_ordering_witness :
    resolvableChain cexServers ["a", "b"] ∧
    stepOrdered (runChain cexServers ["a", "b"] w0).stepsTrace :=
  ⟨by decide, C5_amended_ordering cexServers ["a", "b"] w0 (by decide)⟩

/-- C6. Starting with an empty identifier list attempts no steps, creates no
step records, publishes no outcome (so never Success or Partial), and
reports the rejection once at run level (the console warning), not on any
step. -/
theorem C6_empty_chain (servers : List MCPServer) (w : World) :
    (runChain servers [] w).state.executionSteps = [] ∧
    (runChain servers [] w).state.executionResults = none ∧
    (runChain servers [] w).stepsTrace = [] ∧
    (runChain servers [] w).attempts = [] ∧
    (runChain servers [] w).log = ["No servers in orchestration chain"] :=
  ⟨rfl, rfl, rfl, rfl, rfl⟩

/-- C7. For every non-empty chain, the published outcome's totalDuration
equals the fold of duration-or-zero over the run's final step list: steps
without a recorded duration contribute zero. -/
theorem C7_duration_sum (servers : List MCPServer) (chain : List String) (w : World)
    (h : chain ≠ []) :
    ∃ r, (runChain servers chain w).state.executionResults = some r ∧
      r.totalDuration = sumDurations ((runChain servers chain w).state.executionSteps) := by
  have h0 : ¬ chain.length = 0 := by simpa [List.length_eq_zero] using h
  exact ⟨_, runChain_results servers chain w h0, rfl⟩

/-- C7, witness at the concrete chain ["a"]. -/
theorem C7_duration_sum_witness :
    ((["a"] : List String) ≠ []) ∧
    (∃ r, (runChain cexServers ["a"] w0).state.executionResults = some r ∧
      r.totalDuration = sumDurations ((runChain cexServers ["a"] w0).state.executionSteps)) :=
  ⟨by decide, C7_duration_sum cexServers ["a"] w0 (by decide)⟩

/-- C8, counterexample. The claim says step ids are unique within a run for
every input chain, duplicates permitted. On the chain ["a", "a"] both steps
get the id "step-a": the derived ids collide. -/
theorem C8_counterexample :
    ((initializeExecution [] ["a", "a"] initCtx).1.map (fun s => s.id)) =
      ["step-a", "step-a"] ∧
    ¬ ((initializeExecution [] ["a", "a"] initCtx).1.map (fun s => s.id)).Nodup := by
  refine ⟨rfl, ?_⟩
  decide

/-- C8, amended. Step ids ("step-" ++ entryId) are unique within a run
provided the chain contains no duplicate entry identifiers; a duplicated
identifier yields duplicated step ids. -/
theorem C8_amended_unique_ids (servers : List MCPServer) (chain : List String) (ctx : ExecCtx)
    (h : chain.Nodup) :
    ((initializeExecution servers chain ctx).1.map (fun s => s.id)).Nodup := by
  have hmap : (initializeExecution servers chain ctx).1.map (fun s => s.id) =
      chain.map (fun serverId => "step-" ++ serverId) := by
    rw [initializeExecution_fst, List.map_map]
    rfl
  rw [hmap]
  refine List.Nodup.map ?_ h
  intro a b hab
  have hdata := congrArg String.data hab
  rw [String.data_append, String.data_append] at hdata
  exact String.ext (List.append_cancel_left hdata)

/-- C8, witness at the duplicate-free chain ["a", "b"]. -/
theorem C8_amended_unique_ids_witness :
    (["a", "b"] : List String).Nodup ∧
    ((initializeExecution cexServers ["a", "b"] initCtx).1.map (fun s => s.id)).Nodup :=
  ⟨by decide, C8_amended_unique_ids cexServers ["a", "b"] initCtx (by decide)⟩

/-- C9. Reset clears the step list, the current index (to the -1 sentinel
for "none") and the outcome, and reset is idempotent: resetting the
resulting idle state changes nothing. -/
theorem C9_reset_idempotent (s : ComponentState) :
    resetExecution (resetExecution s) = resetExecution s ∧
    (resetExecution s).executionSteps = [] ∧
    (resetExecution s).currentStepIndex = -1 ∧
    (resetExecution s).executionResults = none :=
  ⟨rfl, rfl, rfl, rfl⟩

/-- C10. For every non-empty chain the published final outcome is "success"
or "partial", never "error": every exception thrown while executing a step
is consumed by the loop's per-step handler, so the run-level error branch is
unreachable. -/
theorem C10_no_error_outcome (servers : List MCPServer) (chain : List String) (w : World)
    (h : chain ≠ []) :
    ∃ r, (runChain servers chain w).state.executionResults = some r ∧
      (r.status = "success" ∨ r.status = "partial") ∧ r.status ≠ "error" := by
  have h0 : ¬ chain.length = 0 := by simpa [List.length_eq_zero] using h
  refine ⟨_, runChain_results servers chain w h0, ?_, ?_⟩
  · by_cases hcn : completedCount ((runChain servers chain w).state.executionSteps) = chain.length
    · left
      rw [if_pos hcn]
    · right
      rw [if_neg hcn]
  · by_cases hcn : completedCount ((runChain servers chain w).state.executionSteps) = chain.length
    · rw [if_pos hcn]
      exact show ("success" : String) ≠ "error" by decide
    · rw [if_neg hcn]
      exact show ("partial" : String) ≠ "error" by decide

/-- C10, witness at the concrete chain ["a"]. -/
theorem C10_no_error_outcome_witness :
    ((["a"] : List String) ≠ []) ∧
    (∃ r, (runChain cexServers ["a"] w0).state.executionResults = some r ∧
      (r.status = "success" ∨ r.status = "partial") ∧ r.status ≠ "error") :=
  ⟨by decide, C10_no_error_outcome cexServers ["a"] w0 (by decide)⟩

end MCPHub
